import Mathlib

/-!
Verification of the fizz-buzz REST service core: the sequence generator
(package fizzbuzz, `Generate`), the query-parameter validator
(package handler, `parseFizzBuzzParams` / `parsePositiveInt`), the
request-frequency store (package statistics, `Record` / `GetMostFrequent`)
and the statistics middleware (package middleware, `Statistics`), embedded
from the Go sources as Lean definitions and proved against the documented
behaviour.
-/

namespace FizzBuzzRest

/-- Go's `strconv.Itoa` applied inside the generator loop: decimal string of
the (positive) counter. -/
def itoa (n : Int) : String := toString n

/-- One iteration of the loop body in `fizzbuzz.Generate`: the token emitted
for position `n`. The `int1 != 0` / `int2 != 0` tests guard the modulo
exactly as in the source. -/
def generateToken (int1 int2 : Int) (str1 str2 : String) (n : Int) : String :=
  let divisibleByInt1 : Bool := if int1 ≠ 0 then n % int1 == 0 else false
  let divisibleByInt2 : Bool := if int2 ≠ 0 then n % int2 == 0 else false
  if divisibleByInt1 && divisibleByInt2 then str1 ++ str2
  else if divisibleByInt1 then str1
  else if divisibleByInt2 then str2
  else itoa n

/-- The function `fizzbuzz.Generate(int1, int2, limit, str1, str2)`: an empty
slice when `limit <= 0`, otherwise the tokens for `n = 1 .. limit` in
positional order. -/
def Generate (int1 int2 limit : Int) (str1 str2 : String) : List String :=
  if limit ≤ 0 then []
  else (List.range' 1 limit.toNat).map
    (fun (n : Nat) => generateToken int1 int2 str1 str2 (n : Int))

/-- Decimal value of a digit list (helper for the Atoi model). -/
def decimalValue (cs : List Char) : Nat :=
  cs.foldl (fun acc c => acc * 10 + (c.toNat - '0'.toNat)) 0

/-- Go's `strconv.Atoi`: an optional sign followed by at least one base-10
digit, rejected when the value overflows the 64-bit `int` range. -/
def goAtoi (s : String) : Option Int :=
  let cs := s.data
  let signDigits : Bool × List Char :=
    match cs with
    | '+' :: rest => (false, rest)
    | '-' :: rest => (true, rest)
    | _ => (false, cs)
  let digits := signDigits.2
  if digits = [] then none
  else if digits.all (fun c => '0' ≤ c && c ≤ '9') then
    let mag : Int := (decimalValue digits : Int)
    let v : Int := if signDigits.1 then -mag else mag
    if -(2 ^ 63) ≤ v ∧ v ≤ 2 ^ 63 - 1 then some v else none
  else none

/-- The query string as `url.Values` (`map[string][]string`); a key bound to
`[]` stands for an absent key, which the Go code treats identically
(`!exists || len(values[param]) == 0`). -/
def Values := String → List String

/-- `url.Values.Get`: the first value for the key, or `""` when there is
none. -/
def getValue (values : Values) (key : String) : String :=
  match values key with
  | [] => ""
  | x :: _ => x

/-- The handler's `fizzBuzzParams` record of validated parameters. -/
structure fizzBuzzParams where
  int1 : Int
  int2 : Int
  limit : Int
  str1 : String
  str2 : String
deriving DecidableEq, Repr

/-- The constant `missingParamsMessage` from `parseFizzBuzzParams`. -/
def missingParamsMessage : String :=
  "missing required parameters: int1, int2, limit, str1, str2"

/-- The slice `requiredParams` from `parseFizzBuzzParams`. -/
def requiredParams : List String := ["int1", "int2", "limit", "str1", "str2"]

/-- `handler.parsePositiveInt`: Atoi, then reject values `<= 0`. -/
def parsePositiveInt (value : String) (name : String) : Except String Int :=
  match goAtoi value with
  | none => .error (name ++ " must be a valid integer")
  | some parsed =>
    if parsed ≤ 0 then .error (name ++ " must be greater than 0")
    else .ok parsed

/-- `handler.parseFizzBuzzParams`: the missing-keys loop, then the empty-label
checks, then `parsePositiveInt` on int1, int2, limit in that order, with the
source's early returns. -/
def parseFizzBuzzParams (values : Values) : Except String fizzBuzzParams :=
  if requiredParams.any (fun p => (values p).isEmpty) then
    .error missingParamsMessage
  else
    let str1 := getValue values "str1"
    if str1 = "" then .error "str1 cannot be empty"
    else
      let str2 := getValue values "str2"
      if str2 = "" then .error "str2 cannot be empty"
      else
        match parsePositiveInt (getValue values "int1") "int1" with
        | .error e => .error e
        | .ok int1 =>
          match parsePositiveInt (getValue values "int2") "int2" with
          | .error e => .error e
          | .ok int2 =>
            match parsePositiveInt (getValue values "limit") "limit" with
            | .error e => .error e
            | .ok limit => .ok ⟨int1, int2, limit, str1, str2⟩

/-- `statistics.RequestParams`: the five-field request tuple used as the map
key. -/
structure RequestParams where
  Int1 : Int
  Int2 : Int
  Limit : Int
  Str1 : String
  Str2 : String
deriving DecidableEq, Repr

/-- `statistics.Stats`: a params / hit-count pair. -/
structure Stats where
  Params : RequestParams
  Hits : Int
deriving DecidableEq, Repr

/-- The store's map `requests map[RequestParams]int`, as an association list
with at most one entry per key; the list order stands for Go's arbitrary map
iteration order. -/
abbrev Store := List (RequestParams × Int)

/-- `statistics.NewStore`: the empty map. -/
def NewStore : Store := []

/-- Reading `s.requests[params]`: Go returns the zero value 0 for a missing
key. -/
def hitCount (s : Store) (p : RequestParams) : Int :=
  match s with
  | [] => 0
  | e :: rest => if e.1 = p then e.2 else hitCount rest p

/-- Key membership in the store's map. -/
def hasKey (s : Store) (p : RequestParams) : Prop :=
  ∃ e ∈ s, e.1 = p

instance (s : Store) (p : RequestParams) : Decidable (hasKey s p) := by
  unfold hasKey
  exact List.decidableBEx _ s

/-- `statistics.Store.Record`: the single statement `s.requests[params]++`,
which inserts the key with count 1 when absent and increments otherwise. -/
def Record (s : Store) (p : RequestParams) : Store :=
  match s with
  | [] => [(p, 1)]
  | e :: rest => if e.1 = p then (e.1, e.2 + 1) :: rest else e :: Record rest p

/-- The loop body of `statistics.Store.GetMostFrequent`: on each entry,
`if !found || hits > maxHits` replace the running maximum; `none` stands for
`found == false`. -/
def bestOf (acc : Option Stats) (e : RequestParams × Int) : Option Stats :=
  match acc with
  | none => some ⟨e.1, e.2⟩
  | some best => if e.2 > best.Hits then some ⟨e.1, e.2⟩ else some best

/-- `statistics.Store.GetMostFrequent`: scan all entries; `none` models Go's
`return nil, false` on an empty map. -/
def GetMostFrequent (s : Store) : Option Stats :=
  s.foldl bestOf none

/-- `GetMostFrequent` as a state transformer: the method body only ever reads
`s.requests` (under `RLock`), so the state component is returned as
received. -/
def getMostFrequentSt (s : Store) : Option Stats × Store :=
  (GetMostFrequent s, s)

/-- Iterated `Record` of the same params. -/
def recordN (s : Store) (p : RequestParams) : Nat → Store
  | 0 => s
  | n + 1 => Record (recordN s p n) p

/-- An operation of the store's public interface. -/
inductive StoreOp where
  | record (p : RequestParams)
  | mostFrequent

/-- The store state after one operation: `Record` mutates the map,
`GetMostFrequent` only reads it. -/
def applyOp (s : Store) : StoreOp → Store
  | .record p => Record s p
  | .mostFrequent => (getMostFrequentSt s).2

/-- The store state after a sequence of operations. -/
def execOps (s : Store) (ops : List StoreOp) : Store :=
  ops.foldl applyOp s

/-- `handler.FizzBuzz`: 400 with the validator's message on a parse failure,
otherwise 200 with the generated sequence. -/
def fizzBuzzHandler (v : Values) : Nat × Except String (List String) :=
  match parseFizzBuzzParams v with
  | .error e => (400, .error e)
  | .ok p => (200, .ok (Generate p.int1 p.int2 p.limit p.str1 p.str2))

/-- `middleware.Statistics` after the wrapped handler ran with the given
response status: record nothing unless the status is 200, re-read the five
query values, return early when one is empty or one of the three integers
fails Atoi, otherwise record the tuple. -/
def statisticsMiddleware (v : Values) (status : Nat) (store : Store) : Store :=
  if status ≠ 200 then store
  else
    let int1Str := getValue v "int1"
    let int2Str := getValue v "int2"
    let limitStr := getValue v "limit"
    let str1 := getValue v "str1"
    let str2 := getValue v "str2"
    if int1Str = "" ∨ int2Str = "" ∨ limitStr = "" ∨ str1 = "" ∨ str2 = "" then
      store
    else
      match goAtoi int1Str with
      | none => store
      | some int1 =>
        match goAtoi int2Str with
        | none => store
        | some int2 =>
          match goAtoi limitStr with
          | none => store
          | some limit => Record store ⟨int1, int2, limit, str1, str2⟩

/-- One `/fizzbuzz` request through the middleware-wrapped handler: the
handler computes the response, then the middleware observes its status and
updates the store. -/
def handleFizzBuzzRequest (v : Values) (store : Store) :
    (Nat × Except String (List String)) × Store :=
  let resp := fizzBuzzHandler v
  (resp, statisticsMiddleware v resp.1 store)

/-- A well-formed query, used by witnesses. -/
def sampleValues : Values := fun k =>
  if k = "int1" then ["3"] else if k = "int2" then ["5"]
  else if k = "limit" then ["15"] else if k = "str1" then ["fizz"]
  else if k = "str2" then ["buzz"] else []

/-- A query with several required keys absent, used by witnesses. -/
def missingValues : Values := fun k =>
  if k = "int1" then ["3"] else []

example : Generate 3 5 15 "fizz" "buzz" =
    ["1", "2", "fizz", "4", "buzz", "fizz", "7", "8", "fizz", "buzz",
     "11", "fizz", "13", "14", "fizzbuzz"] := by decide

example : Generate 0 5 6 "nope" "buzz" = ["1", "2", "3", "4", "buzz", "6"] := by
  decide

example : Generate 2 3 (-4) "a" "b" = [] := by decide

example : goAtoi "15" = some 15 := by decide
example : goAtoi "-3" = some (-3) := by decide
example : goAtoi "+07" = some 7 := by decide
example : goAtoi "" = none := by decide
example : goAtoi "-" = none := by decide
example : goAtoi "1x" = none := by decide
example : goAtoi "9223372036854775807" = some 9223372036854775807 := by decide
example : goAtoi "9223372036854775808" = none := by decide

example : parseFizzBuzzParams sampleValues = .ok ⟨3, 5, 15, "fizz", "buzz"⟩ := rfl

example :
    hitCount (Record (Record NewStore ⟨3, 5, 15, "a", "b"⟩) ⟨3, 5, 15, "a", "b"⟩)
      ⟨3, 5, 15, "a", "b"⟩ = 2 := by decide

example : GetMostFrequent NewStore = none := by decide

example :
    GetMostFrequent (Record NewStore ⟨3, 5, 15, "a", "b"⟩) =
      some ⟨⟨3, 5, 15, "a", "b"⟩, 1⟩ := by decide

/-- The loop body emits by divisibility: a divisor matches exactly when it is
nonzero and divides the position. -/
theorem generateToken_eq (int1 int2 : Int) (str1 str2 : String) (n : Int) :
    generateToken int1 int2 str1 str2 n =
      if (int1 ≠ 0 ∧ int1 ∣ n) ∧ (int2 ≠ 0 ∧ int2 ∣ n) then str1 ++ str2
      else if int1 ≠ 0 ∧ int1 ∣ n then str1
      else if int2 ≠ 0 ∧ int2 ∣ n then str2
      else itoa n := by
  unfold generateToken
  by_cases h1 : int1 = 0 <;> by_cases h2 : int2 = 0 <;>
    simp [h1, h2, ← EuclideanDomain.mod_eq_zero]

/-- C1: for limit >= 1, Generate returns exactly `limit` strings in positional
order, and the element at 1-indexed position n is labelA+labelB when both
nonzero divisors divide n, else labelA on an A-only match, else labelB on a
B-only match, else the decimal string of n. -/
theorem generate_positional_spec (int1 int2 limit : Int) (str1 str2 : String)
    (hl : 1 ≤ limit) :
    (Generate int1 int2 limit str1 str2).length = limit.toNat ∧
    ∀ n : Int, 1 ≤ n → n ≤ limit →
      (Generate int1 int2 limit str1 str2)[(n - 1).toNat]? =
        some (if (int1 ≠ 0 ∧ int1 ∣ n) ∧ (int2 ≠ 0 ∧ int2 ∣ n) then str1 ++ str2
          else if int1 ≠ 0 ∧ int1 ∣ n then str1
          else if int2 ≠ 0 ∧ int2 ∣ n then str2
          else itoa n) := by
  unfold Generate
  rw [if_neg (by omega)]
  constructor
  · rw [List.length_map, List.length_range']
  · intro n h1 h2
    have hi : (n - 1).toNat < limit.toNat := by omega
    rw [List.getElem?_map, List.getElem?_range' _ _ hi]
    have hc : ((1 + 1 * (n - 1).toNat : Nat) : Int) = n := by omega
    rw [Option.map_some', hc, generateToken_eq]

/-- Witness for C1 at the canonical 3/5/15 fizz-buzz input. -/
theorem generate_positional_spec_witness :
    (1 : Int) ≤ 15 ∧
    ((Generate 3 5 15 "fizz" "buzz").length = (15 : Int).toNat ∧
     ∀ n : Int, 1 ≤ n → n ≤ 15 →
       (Generate 3 5 15 "fizz" "buzz")[(n - 1).toNat]? =
         some (if ((3 : Int) ≠ 0 ∧ (3 : Int) ∣ n) ∧ ((5 : Int) ≠ 0 ∧ (5 : Int) ∣ n) then
             "fizz" ++ "buzz"
           else if (3 : Int) ≠ 0 ∧ (3 : Int) ∣ n then "fizz"
           else if (5 : Int) ≠ 0 ∧ (5 : Int) ∣ n then "buzz"
           else itoa n)) :=
  ⟨by decide, generate_positional_spec 3 5 15 "fizz" "buzz" (by decide)⟩

/-- C6: a zero divisor never matches any position; Generate is total for all
integer inputs (any divisors, any limit) and its length is well defined, with
the zero-divisor cases reducing to the other divisor's matches or plain
decimal strings. -/
theorem generate_zero_divisor_total (d limit : Int) (s1 s2 : String) :
    (∀ int1 int2, (Generate int1 int2 limit s1 s2).length = limit.toNat) ∧
    Generate 0 d limit s1 s2 = (List.range' 1 limit.toNat).map
      (fun (n : Nat) => if d ≠ 0 ∧ d ∣ (n : Int) then s2 else itoa (n : Int)) ∧
    Generate d 0 limit s1 s2 = (List.range' 1 limit.toNat).map
      (fun (n : Nat) => if d ≠ 0 ∧ d ∣ (n : Int) then s1 else itoa (n : Int)) ∧
    Generate 0 0 limit s1 s2 = (List.range' 1 limit.toNat).map
      (fun (n : Nat) => itoa (n : Int)) := by
  have hz : limit ≤ 0 → limit.toNat = 0 := fun h => by omega
  refine ⟨fun int1 int2 => ?_, ?_, ?_, ?_⟩ <;> unfold Generate <;>
    by_cases hl : limit ≤ 0 <;>
      first
      | (rw [if_pos hl, hz hl]; simp)
      | (rw [if_neg hl]; first
          | (rw [List.length_map, List.length_range'])
          | (apply List.map_congr_left; intro a _; rw [generateToken_eq]; simp))

theorem noMissing_any_false (v : Values) (hall : ∀ k ∈ requiredParams, v k ≠ []) :
    requiredParams.any (fun k => (v k).isEmpty) = false := by
  simp only [List.any_eq_false, List.isEmpty_iff]
  exact hall

theorem parsePositiveInt_ok_iff (value name : String) (n : Int) :
    parsePositiveInt value name = .ok n ↔ goAtoi value = some n ∧ 1 ≤ n := by
  unfold parsePositiveInt
  cases h : goAtoi value with
  | none => simp
  | some m =>
    by_cases hm : m ≤ 0
    · simp only [hm, if_true, reduceCtorEq, false_iff, not_and, Option.some_inj]
      intro e
      omega
    · simp only [hm, if_false, Except.ok.injEq, Option.some_inj]
      constructor
      · rintro rfl
        exact ⟨rfl, by omega⟩
      · rintro ⟨rfl, -⟩
        rfl

theorem parseFizzBuzzParams_ok_iff (v : Values) (p : fizzBuzzParams) :
    parseFizzBuzzParams v = .ok p ↔
      ((∀ k ∈ requiredParams, v k ≠ []) ∧
       getValue v "str1" ≠ "" ∧ getValue v "str2" ≠ "" ∧
       goAtoi (getValue v "int1") = some p.int1 ∧ 1 ≤ p.int1 ∧
       goAtoi (getValue v "int2") = some p.int2 ∧ 1 ≤ p.int2 ∧
       goAtoi (getValue v "limit") = some p.limit ∧ 1 ≤ p.limit ∧
       p.str1 = getValue v "str1" ∧ p.str2 = getValue v "str2") := by
  unfold parseFizzBuzzParams
  by_cases hm : requiredParams.any (fun k => (v k).isEmpty) = true
  · rw [if_pos hm]
    rw [List.any_eq_true] at hm
    obtain ⟨k, hk, hke⟩ := hm
    rw [List.isEmpty_iff] at hke
    constructor
    · intro h; cases h
    · rintro ⟨hall, -⟩; exact absurd hke (hall k hk)
  · rw [if_neg hm]
    have hall : ∀ k ∈ requiredParams, v k ≠ [] := by
      intro k hk he
      exact hm (List.any_eq_true.mpr ⟨k, hk, by rw [List.isEmpty_iff]; exact he⟩)
    by_cases h1 : getValue v "str1" = ""
    · rw [if_pos h1]
      constructor
      · intro h; cases h
      · rintro ⟨-, hs1, -⟩; exact absurd h1 hs1
    · rw [if_neg h1]
      by_cases h2 : getValue v "str2" = ""
      · rw [if_pos h2]
        constructor
        · intro h; cases h
        · rintro ⟨-, -, hs2, -⟩; exact absurd h2 hs2
      · rw [if_neg h2]
        cases hp1 : parsePositiveInt (getValue v "int1") "int1" with
        | error e =>
          constructor
          · intro h; cases h
          · rintro ⟨-, -, -, hs1, hpos1, -⟩
            have hok := (parsePositiveInt_ok_iff (getValue v "int1") "int1" p.int1).mpr
              ⟨hs1, hpos1⟩
            rw [hp1] at hok
            cases hok
        | ok n1 =>
          obtain ⟨ha1, hpos1⟩ := (parsePositiveInt_ok_iff (getValue v "int1") "int1" n1).mp hp1
          cases hp2 : parsePositiveInt (getValue v "int2") "int2" with
          | error e =>
            constructor
            · intro h; cases h
            · rintro ⟨-, -, -, -, -, hs2, hpos2, -⟩
              have hok := (parsePositiveInt_ok_iff (getValue v "int2") "int2" p.int2).mpr
                ⟨hs2, hpos2⟩
              rw [hp2] at hok
              cases hok
          | ok n2 =>
            obtain ⟨ha2, hpos2⟩ := (parsePositiveInt_ok_iff (getValue v "int2") "int2" n2).mp hp2
            cases hpl : parsePositiveInt (getValue v "limit") "limit" with
            | error e =>
              constructor
              · intro h; cases h
              · rintro ⟨-, -, -, -, -, -, -, hsl, hposl, -⟩
                have hok := (parsePositiveInt_ok_iff (getValue v "limit") "limit" p.limit).mpr
                  ⟨hsl, hposl⟩
                rw [hpl] at hok
                cases hok
            | ok nl =>
              obtain ⟨hal, hposl⟩ := (parsePositiveInt_ok_iff (getValue v "limit") "limit" nl).mp hpl
              constructor
              · intro h
                injection h with h
                subst h
                exact ⟨hall, h1, h2, ha1, hpos1, ha2, hpos2, hal, hposl, rfl, rfl⟩
              · rintro ⟨-, -, -, hs1, -, hs2, -, hsl, -, hstr1, hstr2⟩
                rw [ha1] at hs1
                rw [ha2] at hs2
                rw [hal] at hsl
                injection hs1 with e1
                injection hs2 with e2
                injection hsl with e3
                obtain ⟨pi1, pi2, pl, ps1, ps2⟩ := p
                simp_all

theorem parsePositiveInt_none (value name : String) (h : goAtoi value = none) :
    parsePositiveInt value name = .error (name ++ " must be a valid integer") := by
  unfold parsePositiveInt
  rw [h]

theorem parsePositiveInt_nonpos (value name : String) (n : Int)
    (h : goAtoi value = some n) (hn : n ≤ 0) :
    parsePositiveInt value name = .error (name ++ " must be greater than 0") := by
  unfold parsePositiveInt
  rw [h]
  simp [hn]

theorem parsePositiveInt_error_ne (value name : String) (e : String)
    (h : parsePositiveInt value name = .error e) :
    e = name ++ " must be a valid integer" ∨ e = name ++ " must be greater than 0" := by
  unfold parsePositiveInt at h
  cases hg : goAtoi value with
  | none =>
    rw [hg] at h
    left
    exact (Except.error.inj h).symm
  | some m =>
    rw [hg] at h
    by_cases hm : m ≤ 0
    · simp only [hm, if_true] at h
      right
      exact (Except.error.inj h).symm
    · simp only [hm, if_false] at h
      cases h

theorem parseFizzBuzzParams_eq_of_checks (v : Values)
    (hall : ∀ k ∈ requiredParams, v k ≠ [])
    (h1 : getValue v "str1" ≠ "") (h2 : getValue v "str2" ≠ "") :
    parseFizzBuzzParams v =
      (match parsePositiveInt (getValue v "int1") "int1" with
       | .error e => .error e
       | .ok int1 =>
         match parsePositiveInt (getValue v "int2") "int2" with
         | .error e => .error e
         | .ok int2 =>
           match parsePositiveInt (getValue v "limit") "limit" with
           | .error e => .error e
           | .ok limit => .ok ⟨int1, int2, limit, getValue v "str1", getValue v "str2"⟩) := by
  unfold parseFizzBuzzParams
  rw [if_neg (by rw [noMissing_any_false v hall]; simp), if_neg h1, if_neg h2]

/-- C3: the validator succeeds exactly when all five keys are present, both
labels are non-empty and the three numeric fields Atoi-parse to integers
>= 1; on success the returned record carries exactly those parsed values;
a numeric field that parses non-positive yields the greater-than-0 message
and one that fails Atoi yields the valid-integer message, in source order. -/
theorem parseFizzBuzzParams_valid_iff (v : Values) :
    ((∃ p, parseFizzBuzzParams v = .ok p) ↔
      ((∀ k ∈ requiredParams, v k ≠ []) ∧
       getValue v "str1" ≠ "" ∧ getValue v "str2" ≠ "" ∧
       (∃ n, goAtoi (getValue v "int1") = some n ∧ 1 ≤ n) ∧
       (∃ n, goAtoi (getValue v "int2") = some n ∧ 1 ≤ n) ∧
       (∃ n, goAtoi (getValue v "limit") = some n ∧ 1 ≤ n))) ∧
    (∀ p, parseFizzBuzzParams v = .ok p →
      goAtoi (getValue v "int1") = some p.int1 ∧ 1 ≤ p.int1 ∧
      goAtoi (getValue v "int2") = some p.int2 ∧ 1 ≤ p.int2 ∧
      goAtoi (getValue v "limit") = some p.limit ∧ 1 ≤ p.limit ∧
      p.str1 = getValue v "str1" ∧ p.str1 ≠ "" ∧
      p.str2 = getValue v "str2" ∧ p.str2 ≠ "") ∧
    (((∀ k ∈ requiredParams, v k ≠ []) ∧ getValue v "str1" ≠ "" ∧ getValue v "str2" ≠ "") →
      (goAtoi (getValue v "int1") = none →
        parseFizzBuzzParams v = .error ("int1" ++ " must be a valid integer")) ∧
      (∀ n, goAtoi (getValue v "int1") = some n → n ≤ 0 →
        parseFizzBuzzParams v = .error ("int1" ++ " must be greater than 0")) ∧
      (∀ n1, goAtoi (getValue v "int1") = some n1 → 1 ≤ n1 →
        ((goAtoi (getValue v "int2") = none →
           parseFizzBuzzParams v = .error ("int2" ++ " must be a valid integer")) ∧
         (∀ n, goAtoi (getValue v "int2") = some n → n ≤ 0 →
           parseFizzBuzzParams v = .error ("int2" ++ " must be greater than 0")) ∧
         (∀ n2, goAtoi (getValue v "int2") = some n2 → 1 ≤ n2 →
           ((goAtoi (getValue v "limit") = none →
              parseFizzBuzzParams v = .error ("limit" ++ " must be a valid integer")) ∧
            (∀ n, goAtoi (getValue v "limit") = some n → n ≤ 0 →
              parseFizzBuzzParams v = .error ("limit" ++ " must be greater than 0"))))))) := by
  refine ⟨⟨?_, ?_⟩, ?_, ?_⟩
  · rintro ⟨p, hp⟩
    obtain ⟨hall, h1, h2, ha1, hp1, ha2, hp2, hal, hpl, -, -⟩ :=
      (parseFizzBuzzParams_ok_iff v p).mp hp
    exact ⟨hall, h1, h2, ⟨p.int1, ha1, hp1⟩, ⟨p.int2, ha2, hp2⟩, ⟨p.limit, hal, hpl⟩⟩
  · rintro ⟨hall, h1, h2, ⟨n1, ha1, hp1⟩, ⟨n2, ha2, hp2⟩, ⟨nl, hal, hpl⟩⟩
    exact ⟨⟨n1, n2, nl, getValue v "str1", getValue v "str2"⟩,
      (parseFizzBuzzParams_ok_iff v _).mpr
        ⟨hall, h1, h2, ha1, hp1, ha2, hp2, hal, hpl, rfl, rfl⟩⟩
  · intro p hp
    obtain ⟨hall, h1, h2, ha1, hp1, ha2, hp2, hal, hpl, hs1, hs2⟩ :=
      (parseFizzBuzzParams_ok_iff v p).mp hp
    exact ⟨ha1, hp1, ha2, hp2, hal, hpl, hs1, hs1 ▸ h1, hs2, hs2 ▸ h2⟩
  · rintro ⟨hall, h1, h2⟩
    have heq := parseFizzBuzzParams_eq_of_checks v hall h1 h2
    refine ⟨?_, ?_, ?_⟩
    · intro hn
      rw [heq, parsePositiveInt_none _ "int1" hn]
    · intro n hn hle
      rw [heq, parsePositiveInt_nonpos _ "int1" n hn hle]
    · intro n1 ha1 hpos1
      have hok1 : parsePositiveInt (getValue v "int1") "int1" = .ok n1 :=
        (parsePositiveInt_ok_iff _ "int1" n1).mpr ⟨ha1, hpos1⟩
      refine ⟨?_, ?_, ?_⟩
      · intro hn
        rw [heq, hok1, parsePositiveInt_none _ "int2" hn]
      · intro n hn hle
        rw [heq, hok1, parsePositiveInt_nonpos _ "int2" n hn hle]
      · intro n2 ha2 hpos2
        have hok2 : parsePositiveInt (getValue v "int2") "int2" = .ok n2 :=
          (parsePositiveInt_ok_iff _ "int2" n2).mpr ⟨ha2, hpos2⟩
        refine ⟨?_, ?_⟩
        · intro hn
          rw [heq, hok1, hok2, parsePositiveInt_none _ "limit" hn]
        · intro n hn hle
          rw [heq, hok1, hok2, parsePositiveInt_nonpos _ "limit" n hn hle]

/-- C7: an absent key makes the validator fail with the single message that
lists all five canonical names, regardless of the other fields, while inputs
with all keys present never produce that message (a present-but-empty value
falls through to the later checks). -/
theorem missing_params_precedence (v : Values) :
    ((∃ k ∈ requiredParams, v k = []) →
      parseFizzBuzzParams v = .error missingParamsMessage) ∧
    ((∀ k ∈ requiredParams, v k ≠ []) →
      parseFizzBuzzParams v ≠ .error missingParamsMessage) := by
  constructor
  · rintro ⟨k, hk, hke⟩
    unfold parseFizzBuzzParams
    rw [if_pos (List.any_eq_true.mpr ⟨k, hk, by rw [List.isEmpty_iff]; exact hke⟩)]
  · intro hall h
    by_cases h1 : getValue v "str1" = ""
    · unfold parseFizzBuzzParams at h
      rw [if_neg (by rw [noMissing_any_false v hall]; simp), if_pos h1] at h
      exact absurd (Except.error.inj h) (by decide)
    · by_cases h2 : getValue v "str2" = ""
      · unfold parseFizzBuzzParams at h
        rw [if_neg (by rw [noMissing_any_false v hall]; simp), if_neg h1, if_pos h2] at h
        exact absurd (Except.error.inj h) (by decide)
      · rw [parseFizzBuzzParams_eq_of_checks v hall h1 h2] at h
        cases hp1 : parsePositiveInt (getValue v "int1") "int1" with
        | error e =>
          rw [hp1] at h
          rcases parsePositiveInt_error_ne _ "int1" e hp1 with rfl | rfl <;>
            exact absurd (Except.error.inj h) (by decide)
        | ok n1 =>
          rw [hp1] at h
          cases hp2 : parsePositiveInt (getValue v "int2") "int2" with
          | error e =>
            rw [hp2] at h
            rcases parsePositiveInt_error_ne _ "int2" e hp2 with rfl | rfl <;>
              exact absurd (Except.error.inj h) (by decide)
          | ok n2 =>
            rw [hp2] at h
            cases hpl : parsePositiveInt (getValue v "limit") "limit" with
            | error e =>
              rw [hpl] at h
              rcases parsePositiveInt_error_ne _ "limit" e hpl with rfl | rfl <;>
                exact absurd (Except.error.inj h) (by decide)
            | ok nl =>
              rw [hpl] at h
              cases h

theorem hitCount_record_same (s : Store) (p : RequestParams) :
    hitCount (Record s p) p = hitCount s p + 1 := by
  induction s with
  | nil => simp [Record, hitCount]
  | cons e rest ih =>
    by_cases h : e.1 = p
    · simp [Record, hitCount, h]
    · simp [Record, hitCount, h, ih]

theorem hitCount_record_other (s : Store) (p q : RequestParams) (hqp : q ≠ p) :
    hitCount (Record s p) q = hitCount s q := by
  induction s with
  | nil => simp [Record, hitCount, Ne.symm hqp]
  | cons e rest ih =>
    by_cases h : e.1 = p
    · simp [Record, hitCount, h, Ne.symm hqp]
    · simp only [Record, if_neg h, hitCount]
      by_cases h' : e.1 = q <;> simp [h', ih]

theorem hasKey_record_mono (s : Store) (p q : RequestParams) (h : hasKey s q) :
    hasKey (Record s p) q := by
  induction s with
  | nil => exact absurd h (by simp [hasKey])
  | cons e rest ih =>
    obtain ⟨x, hx, hxq⟩ := h
    by_cases he : e.1 = p
    · simp only [Record, if_pos he]
      rcases List.mem_cons.mp hx with rfl | hx
      · exact ⟨(x.1, x.2 + 1), by simp, hxq⟩
      · exact ⟨x, by simp [hx], hxq⟩
    · simp only [Record, if_neg he]
      rcases List.mem_cons.mp hx with rfl | hx
      · exact ⟨x, by simp, hxq⟩
      · obtain ⟨y, hy, hyq⟩ := ih ⟨x, hx, hxq⟩
        exact ⟨y, by simp [hy], hyq⟩

theorem hasKey_record_self (s : Store) (p : RequestParams) :
    hasKey (Record s p) p := by
  induction s with
  | nil => exact ⟨(p, 1), by simp [Record], rfl⟩
  | cons e rest ih =>
    by_cases he : e.1 = p
    · exact ⟨(e.1, e.2 + 1), by simp [Record, if_pos he], he⟩
    · obtain ⟨y, hy, hyp⟩ := ih
      exact ⟨y, by simp [Record, if_neg he, hy], hyp⟩

theorem foldl_bestOf_some (s : Store) (b : Stats) :
    ∃ st, s.foldl bestOf (some b) = some st ∧
      (st = b ∨ (st.Params, st.Hits) ∈ s) ∧
      b.Hits ≤ st.Hits ∧ ∀ e ∈ s, e.2 ≤ st.Hits := by
  induction s generalizing b with
  | nil => exact ⟨b, rfl, Or.inl rfl, le_refl _, by simp⟩
  | cons e rest ih =>
    by_cases h : e.2 > b.Hits
    · obtain ⟨st, hst, hmem, hle, hmax⟩ := ih ⟨e.1, e.2⟩
      refine ⟨st, ?_, ?_, ?_, ?_⟩
      · simpa [List.foldl_cons, bestOf, h] using hst
      · rcases hmem with rfl | hmem
        · exact Or.inr (by simp)
        · exact Or.inr (by simp [hmem])
      · simp at hle
        omega
      · intro x hx
        rcases List.mem_cons.mp hx with rfl | hx
        · exact hle
        · exact hmax x hx
    · obtain ⟨st, hst, hmem, hle, hmax⟩ := ih b
      refine ⟨st, ?_, ?_, hle, ?_⟩
      · simpa [List.foldl_cons, bestOf, h] using hst
      · rcases hmem with rfl | hmem
        · exact Or.inl rfl
        · exact Or.inr (by simp [hmem])
      · intro x hx
        rcases List.mem_cons.mp hx with rfl | hx
        · omega
        · exact hmax x hx

theorem getMostFrequent_some (s : Store) (hne : s ≠ []) :
    ∃ st, GetMostFrequent s = some st ∧
      (st.Params, st.Hits) ∈ s ∧ ∀ e ∈ s, e.2 ≤ st.Hits := by
  cases s with
  | nil => exact absurd rfl hne
  | cons e rest =>
    obtain ⟨st, hst, hmem, hle, hmax⟩ := foldl_bestOf_some rest ⟨e.1, e.2⟩
    refine ⟨st, ?_, ?_, ?_⟩
    · simpa [GetMostFrequent, List.foldl_cons, bestOf] using hst
    · rcases hmem with rfl | hmem
      · simp
      · simp [hmem]
    · intro x hx
      rcases List.mem_cons.mp hx with rfl | hx
      · exact hle
      · exact hmax x hx

theorem hitCount_of_mem_nodup (s : Store) (p : RequestParams) (c : Int)
    (hnd : (s.map Prod.fst).Nodup) (hmem : (p, c) ∈ s) :
    hitCount s p = c := by
  induction s with
  | nil => cases hmem
  | cons e rest ih =>
    rw [List.map_cons, List.nodup_cons] at hnd
    rcases List.mem_cons.mp hmem with rfl | hmem
    · simp [hitCount]
    · have he : e.1 ≠ p := by
        intro h
        exact hnd.1 (h ▸ List.mem_map_of_mem Prod.fst hmem)
      simp [hitCount, he, ih hnd.2 hmem]

theorem hasKey_applyOp_mono (s : Store) (op : StoreOp) (p : RequestParams)
    (h : hasKey s p) : hasKey (applyOp s op) p := by
  cases op with
  | record q => exact hasKey_record_mono s q p h
  | mostFrequent => exact h

theorem hitCount_applyOp_mono (s : Store) (op : StoreOp) (p : RequestParams) :
    hitCount s p ≤ hitCount (applyOp s op) p := by
  cases op with
  | record q =>
    by_cases h : p = q
    · subst h
      rw [applyOp, hitCount_record_same]
      omega
    · rw [applyOp, hitCount_record_other s q p h]
  | mostFrequent => exact le_refl _

theorem hasKey_execOps_mono (s : Store) (ops : List StoreOp) (p : RequestParams)
    (h : hasKey s p) : hasKey (execOps s ops) p := by
  induction ops generalizing s with
  | nil => exact h
  | cons op rest ih => exact ih (applyOp s op) (hasKey_applyOp_mono s op p h)

theorem hitCount_execOps_mono (s : Store) (ops : List StoreOp) (p : RequestParams) :
    hitCount s p ≤ hitCount (execOps s ops) p := by
  induction ops generalizing s with
  | nil => exact le_refl _
  | cons op rest ih =>
    exact le_trans (hitCount_applyOp_mono s op p) (ih (applyOp s op))

theorem counts_pos_record (s : Store) (p : RequestParams)
    (h : ∀ e ∈ s, 1 ≤ e.2) : ∀ e ∈ Record s p, 1 ≤ e.2 := by
  induction s with
  | nil =>
    intro e he
    rcases List.mem_cons.mp he with rfl | he
    · exact le_refl _
    · cases he
  | cons x rest ih =>
    by_cases hx : x.1 = p
    · rw [Record, if_pos hx]
      intro e he
      rcases List.mem_cons.mp he with rfl | he
      · have := h x (by simp)
        simp
        omega
      · exact h e (by simp [he])
    · rw [Record, if_neg hx]
      intro e he
      rcases List.mem_cons.mp he with rfl | he
      · exact h e (by simp)
      · exact ih (fun y hy => h y (by simp [hy])) e he

theorem counts_pos_execOps (s : Store) (ops : List StoreOp)
    (h : ∀ e ∈ s, 1 ≤ e.2) : ∀ e ∈ execOps s ops, 1 ≤ e.2 := by
  induction ops generalizing s with
  | nil => exact h
  | cons op rest ih =>
    cases op with
    | record p => exact ih (Record s p) (counts_pos_record s p h)
    | mostFrequent => exact ih s h

theorem hitCount_eq_zero_of_not_hasKey (s : Store) (p : RequestParams)
    (h : ¬hasKey s p) : hitCount s p = 0 := by
  induction s with
  | nil => rfl
  | cons e rest ih =>
    have he : e.1 ≠ p := fun hh => h ⟨e, by simp, hh⟩
    rw [hitCount, if_neg he]
    exact ih (fun ⟨x, hx, hxp⟩ => h ⟨x, by simp [hx], hxp⟩)

theorem hitCount_recordN (s : Store) (p : RequestParams) (N : Nat) :
    hitCount (recordN s p N) p = hitCount s p + N := by
  induction N with
  | zero => simp [recordN]
  | succ n ih =>
    rw [recordN, hitCount_record_same, ih]
    push_cast
    ring

theorem hitCount_recordN_other (s : Store) (p q : RequestParams) (N : Nat)
    (hqp : q ≠ p) : hitCount (recordN s p N) q = hitCount s q := by
  induction N with
  | zero => rfl
  | succ n ih => rw [recordN, hitCount_record_other _ _ _ hqp, ih]

/-- C4: from any store state, N calls of Record(p) raise the stored count of
p by exactly N; a single Record adds exactly 1, never fails, touches no other
key, and creates the entry with count 1 when p was absent. -/
theorem record_accumulates (s : Store) (p q : RequestParams) (N : Nat)
    (_hN : 1 ≤ N) :
    hitCount (recordN s p N) p = hitCount s p + N ∧
    (q ≠ p → hitCount (recordN s p N) q = hitCount s q) ∧
    hitCount (Record s p) p = hitCount s p + 1 ∧
    (¬hasKey s p → hasKey (Record s p) p ∧ hitCount (Record s p) p = 1) := by
  refine ⟨hitCount_recordN s p N, fun hqp => hitCount_recordN_other s p q N hqp,
    hitCount_record_same s p, fun habs => ⟨hasKey_record_self s p, ?_⟩⟩
  rw [hitCount_record_same, hitCount_eq_zero_of_not_hasKey s p habs]
  ring

/-- Witness for C4 at a concrete tuple recorded three times from fresh. -/
theorem record_accumulates_witness :
    1 ≤ 3 ∧
    (hitCount (recordN NewStore ⟨3, 5, 15, "fizz", "buzz"⟩ 3) ⟨3, 5, 15, "fizz", "buzz"⟩ =
      hitCount NewStore ⟨3, 5, 15, "fizz", "buzz"⟩ + 3 ∧
    ((⟨2, 4, 10, "a", "b"⟩ : RequestParams) ≠ ⟨3, 5, 15, "fizz", "buzz"⟩ →
      hitCount (recordN NewStore ⟨3, 5, 15, "fizz", "buzz"⟩ 3) ⟨2, 4, 10, "a", "b"⟩ =
        hitCount NewStore ⟨2, 4, 10, "a", "b"⟩) ∧
    hitCount (Record NewStore ⟨3, 5, 15, "fizz", "buzz"⟩) ⟨3, 5, 15, "fizz", "buzz"⟩ =
      hitCount NewStore ⟨3, 5, 15, "fizz", "buzz"⟩ + 1 ∧
    (¬hasKey NewStore ⟨3, 5, 15, "fizz", "buzz"⟩ →
      hasKey (Record NewStore ⟨3, 5, 15, "fizz", "buzz"⟩) ⟨3, 5, 15, "fizz", "buzz"⟩ ∧
      hitCount (Record NewStore ⟨3, 5, 15, "fizz", "buzz"⟩) ⟨3, 5, 15, "fizz", "buzz"⟩ = 1)) :=
  ⟨by decide, record_accumulates NewStore ⟨3, 5, 15, "fizz", "buzz"⟩ ⟨2, 4, 10, "a", "b"⟩ 3
    (by decide)⟩

/-- C2: on a non-empty store GetMostFrequent returns a stored entry whose
count is the maximum over all entries (and, with the map's keys unique, the
stored count of the winner equals the returned hits); on the empty store it
returns nothing, and after one Record on a fresh store it returns that entry
with count 1. -/
theorem getMostFrequent_spec (s : Store) (p : RequestParams) :
    (s ≠ [] → ∃ st, GetMostFrequent s = some st ∧
      (st.Params, st.Hits) ∈ s ∧ (∀ e ∈ s, e.2 ≤ st.Hits) ∧
      ((s.map Prod.fst).Nodup → hitCount s st.Params = st.Hits)) ∧
    GetMostFrequent NewStore = none ∧
    GetMostFrequent (Record NewStore p) = some ⟨p, 1⟩ := by
  refine ⟨?_, rfl, rfl⟩
  intro hne
  obtain ⟨st, hst, hmem, hmax⟩ := getMostFrequent_some s hne
  exact ⟨st, hst, hmem, hmax,
    fun hnd => hitCount_of_mem_nodup s st.Params st.Hits hnd hmem⟩

/-- Witness for C2 on a concrete two-entry store. -/
theorem getMostFrequent_spec_witness :
    ([(⟨3, 5, 15, "fizz", "buzz"⟩, 2), (⟨2, 4, 10, "a", "b"⟩, 1)] : Store) ≠ [] ∧
    (∃ st,
      GetMostFrequent [(⟨3, 5, 15, "fizz", "buzz"⟩, 2), (⟨2, 4, 10, "a", "b"⟩, 1)] = some st ∧
      (st.Params, st.Hits) ∈
        ([(⟨3, 5, 15, "fizz", "buzz"⟩, 2), (⟨2, 4, 10, "a", "b"⟩, 1)] : Store) ∧
      (∀ e ∈ ([(⟨3, 5, 15, "fizz", "buzz"⟩, 2), (⟨2, 4, 10, "a", "b"⟩, 1)] : Store),
        e.2 ≤ st.Hits) ∧
      ((([(⟨3, 5, 15, "fizz", "buzz"⟩, 2), (⟨2, 4, 10, "a", "b"⟩, 1)] : Store).map
          Prod.fst).Nodup →
        hitCount [(⟨3, 5, 15, "fizz", "buzz"⟩, 2), (⟨2, 4, 10, "a", "b"⟩, 1)] st.Params =
          st.Hits)) :=
  ⟨by simp,
    (getMostFrequent_spec [(⟨3, 5, 15, "fizz", "buzz"⟩, 2), (⟨2, 4, 10, "a", "b"⟩, 1)]
      ⟨3, 5, 15, "fizz", "buzz"⟩).1 (by simp)⟩

/-- C8: along every operation sequence from a fresh store, the key set never
loses a key and no count ever decreases. -/
theorem store_monotone (ops more : List StoreOp) (p : RequestParams) :
    (hasKey (execOps NewStore ops) p → hasKey (execOps NewStore (ops ++ more)) p) ∧
    hitCount (execOps NewStore ops) p ≤ hitCount (execOps NewStore (ops ++ more)) p := by
  have hsplit : execOps NewStore (ops ++ more) = execOps (execOps NewStore ops) more := by
    rw [execOps, execOps, execOps, List.foldl_append]
  rw [hsplit]
  exact ⟨hasKey_execOps_mono _ more p, hitCount_execOps_mono _ more p⟩

/-- Witness for C8 on a concrete operation sequence. -/
theorem store_monotone_witness :
    (hasKey (execOps NewStore [StoreOp.record ⟨3, 5, 15, "fizz", "buzz"⟩])
        ⟨3, 5, 15, "fizz", "buzz"⟩ →
      hasKey (execOps NewStore ([StoreOp.record ⟨3, 5, 15, "fizz", "buzz"⟩] ++
        [StoreOp.mostFrequent, StoreOp.record ⟨2, 4, 10, "a", "b"⟩]))
        ⟨3, 5, 15, "fizz", "buzz"⟩) ∧
    hitCount (execOps NewStore [StoreOp.record ⟨3, 5, 15, "fizz", "buzz"⟩])
        ⟨3, 5, 15, "fizz", "buzz"⟩ ≤
      hitCount (execOps NewStore ([StoreOp.record ⟨3, 5, 15, "fizz", "buzz"⟩] ++
        [StoreOp.mostFrequent, StoreOp.record ⟨2, 4, 10, "a", "b"⟩]))
        ⟨3, 5, 15, "fizz", "buzz"⟩ :=
  store_monotone [StoreOp.record ⟨3, 5, 15, "fizz", "buzz"⟩]
    [StoreOp.mostFrequent, StoreOp.record ⟨2, 4, 10, "a", "b"⟩] ⟨3, 5, 15, "fizz", "buzz"⟩

/-- C9: in every store state reachable from fresh, every stored count is at
least 1, so a successful GetMostFrequent returns strictly positive hits. -/
theorem store_counts_positive (ops : List StoreOp) :
    (∀ e ∈ execOps NewStore ops, 1 ≤ e.2) ∧
    (∀ st, GetMostFrequent (execOps NewStore ops) = some st → 1 ≤ st.Hits) := by
  have hpos := counts_pos_execOps NewStore ops (by simp [NewStore])
  refine ⟨hpos, ?_⟩
  intro st hst
  cases hs : execOps NewStore ops with
  | nil => rw [hs] at hst; cases hst
  | cons e rest =>
    obtain ⟨st', hst', hmem, -⟩ := getMostFrequent_some (e :: rest) (by simp)
    rw [hs] at hst
    rw [hst] at hst'
    injection hst' with h
    subst h
    exact hpos (st.Params, st.Hits) (hs ▸ hmem)

/-- Witness for C9 on a concrete operation sequence. -/
theorem store_counts_positive_witness :
    (∀ e ∈ execOps NewStore [StoreOp.record ⟨3, 5, 15, "fizz", "buzz"⟩,
        StoreOp.record ⟨3, 5, 15, "fizz", "buzz"⟩, StoreOp.mostFrequent], 1 ≤ e.2) ∧
    (∀ st, GetMostFrequent (execOps NewStore [StoreOp.record ⟨3, 5, 15, "fizz", "buzz"⟩,
        StoreOp.record ⟨3, 5, 15, "fizz", "buzz"⟩, StoreOp.mostFrequent]) = some st →
      1 ≤ st.Hits) :=
  store_counts_positive [StoreOp.record ⟨3, 5, 15, "fizz", "buzz"⟩,
    StoreOp.record ⟨3, 5, 15, "fizz", "buzz"⟩, StoreOp.mostFrequent]

/-- C10: GetMostFrequent is read-only: the state it passes back has the same
key set, the same count at every key, and is the same map it received. -/
theorem getMostFrequent_readonly (s : Store) (p : RequestParams) :
    (getMostFrequentSt s).2.map Prod.fst = s.map Prod.fst ∧
    hitCount (getMostFrequentSt s).2 p = hitCount s p ∧
    (getMostFrequentSt s).2 = s :=
  ⟨rfl, rfl, rfl⟩

theorem goAtoi_ne_empty (s : String) (n : Int) (h : goAtoi s = some n) :
    s ≠ "" := by
  intro he
  rw [he] at h
  cases h

/-- C5: a /fizzbuzz request through the middleware-wrapped handler records
exactly one observation, of exactly the validated parameters, when and only
when validation succeeds (status 200); a validation failure responds 400 and
leaves the store untouched. -/
theorem statistics_recorded_iff_success (v : Values) (store : Store) :
    (∀ p, parseFizzBuzzParams v = .ok p →
      (fizzBuzzHandler v).1 = 200 ∧
      (handleFizzBuzzRequest v store).2 =
        Record store ⟨p.int1, p.int2, p.limit, p.str1, p.str2⟩) ∧
    (∀ e, parseFizzBuzzParams v = .error e →
      (fizzBuzzHandler v).1 = 400 ∧
      (handleFizzBuzzRequest v store).2 = store) := by
  constructor
  · intro p hp
    obtain ⟨hall, h1, h2, ha1, hp1, ha2, hp2, hal, hpl, hs1, hs2⟩ :=
      (parseFizzBuzzParams_ok_iff v p).mp hp
    have hstat : (fizzBuzzHandler v).1 = 200 := by
      unfold fizzBuzzHandler
      rw [hp]
    refine ⟨hstat, ?_⟩
    have hmw : (handleFizzBuzzRequest v store).2 =
        statisticsMiddleware v (fizzBuzzHandler v).1 store := rfl
    rw [hmw, hstat]
    unfold statisticsMiddleware
    rw [if_neg (by omega)]
    rw [if_neg (by
      push_neg
      exact ⟨goAtoi_ne_empty _ _ ha1, goAtoi_ne_empty _ _ ha2,
        goAtoi_ne_empty _ _ hal, h1, h2⟩)]
    rw [ha1, ha2, hal, hs1, hs2]
  · intro e he
    have hstat : (fizzBuzzHandler v).1 = 400 := by
      unfold fizzBuzzHandler
      rw [he]
    refine ⟨hstat, ?_⟩
    have hmw : (handleFizzBuzzRequest v store).2 =
        statisticsMiddleware v (fizzBuzzHandler v).1 store := rfl
    rw [hmw, hstat]
    unfold statisticsMiddleware
    rw [if_pos (by omega)]

/-- Witness for C5: the canonical valid query records its tuple once. -/
theorem statistics_recorded_iff_success_witness :
    parseFizzBuzzParams sampleValues = .ok ⟨3, 5, 15, "fizz", "buzz"⟩ ∧
    ((fizzBuzzHandler sampleValues).1 = 200 ∧
     (handleFizzBuzzRequest sampleValues NewStore).2 =
       Record NewStore ⟨3, 5, 15, "fizz", "buzz"⟩) :=
  ⟨rfl, (statistics_recorded_iff_success sampleValues NewStore).1
    ⟨3, 5, 15, "fizz", "buzz"⟩ rfl⟩

/-- Witness for C3: the canonical valid query is accepted. -/
theorem parseFizzBuzzParams_valid_iff_witness :
    ∃ p, parseFizzBuzzParams sampleValues = .ok p :=
  (parseFizzBuzzParams_valid_iff sampleValues).1.mpr
    ⟨by decide, by decide, by decide, ⟨3, by decide, by decide⟩,
     ⟨5, by decide, by decide⟩, ⟨15, by decide, by decide⟩⟩

/-- Witness for C7: with str1, str2 and limit absent, the validator reports
the missing-parameters message even though int1 is well formed. -/
theorem missing_params_precedence_witness :
    parseFizzBuzzParams missingValues = .error missingParamsMessage :=
  (missing_params_precedence missingValues).1 ⟨"str1", by decide, by decide⟩

end FizzBuzzRest
